import Mathlib

/-!
Shallow embedding of the chunked large-file text-buffer core of the `fresh`
repository: `src/memstore.rs` (chunk cache) and `src/virtual_file.rs`
(file-backed load/store adapter and the line cursor).

Modelling conventions:
- bytes are `Nat` (file contents in the claims are ASCII, for which
  `String::from_utf8_lossy` is the identity, so splitting the lossy string on
  the char `\n` coincides with splitting the byte list on byte 10);
- `u64` values stay `Nat`; the one place where `u64` wrapping matters
  (`old_index - 1` in `update_chunk_lines`, evaluated even when
  `old_index = 0`) uses an explicit wrapping decrement `u64SubOne`;
- positional file IO is a pure function of a modelled file; a fallible call
  site is a function into `Except`, and Rust `.expect(..)` (process abort on
  `Err`) is modelled by the `RunResult.aborted` outcome;
- effects are made explicit: every operation returns, next to its result and
  successor state, the list of Backing Store calls it issued (load events as
  the byte offsets passed to `load`, store events as offset/data pairs);
- the `HashMap<u64, Chunk>` is an association list inserted in first-access
  order; its key-uniqueness invariant appears as a `Nodup` hypothesis where a
  proof needs it.
-/

/-- A byte of file content. -/
abbrev Byte := Nat

/-- Modelled from the spec: `LoadedLine` lives in the repository's `lines.rs`,
which is not present under `src/`; per the spec a logical line is a maximal
run of bytes without the terminator, and `VirtualFile::parse_chunk` builds a
`LoadedLine` from exactly one split segment via `LoadedLine::new(String)`, so
it is modelled as its content alone (the code attaches no fragment marker). -/
structure LoadedLine where
  content : List Byte
deriving DecidableEq, Repr

/-- Rust `memstore.rs`: `enum Chunk { Loaded { data, need_store }, Empty }`. -/
inductive Chunk where
  | loaded (data : List Byte) (need_store : Bool)
  | empty
deriving DecidableEq, Repr

/-- Outcome of running code that may hit a Rust `.expect(..)`:
either a normal value or a process abort (panic) with the expect message. -/
inductive RunResult (α : Type) where
  | aborted (msg : String)
  | ok (a : α)
deriving DecidableEq, Repr

/-- Rust `HashMap::get`-style first-match lookup in the association-list model of
`Memstore.chunks`. -/
def lookupChunk : List (Nat × Chunk) → Nat → Option Chunk
  | [], _ => none
  | (j, c) :: rest, i => if j = i then some c else lookupChunk rest i

/-- Rust `memstore.rs`: `Memstore<L>`. The pluggable `LoadStore` is split by call
site: `get` only calls `load`, carried here as a pure field (trait signature
`fn load(&self, offset: u64) -> Option<Vec<u8>>`), while `store_all` receives
its `store` function as an argument where it is used. -/
structure Memstore where
  chunks : List (Nat × Chunk)
  chunk_size : Nat
  load : Nat → Option (List Byte)

namespace Memstore

/-- Rust `Memstore::new`. -/
def new (chunk_size : Nat) (load : Nat → Option (List Byte)) : Memstore :=
  { chunks := [], chunk_size := chunk_size, load := load }

/-- Rust `Memstore::get`: `self.chunks.entry(chunk_index).or_insert_with_key(..)` —
return the cached chunk if present; otherwise call
`load(index * chunk_size)`, inserting `Loaded { data, need_store: false }` on
`Some` and `Empty` on `None`. Returns the chunk, the successor store, and the
list of `load` offsets issued. -/
def get (m : Memstore) (i : Nat) : Chunk × Memstore × List Nat :=
  match lookupChunk m.chunks i with
  | some c => (c, m, [])
  | none =>
    let c := match m.load (i * m.chunk_size) with
      | some data => Chunk.loaded data false
      | none => Chunk.empty
    (c, { m with chunks := m.chunks ++ [(i, c)] }, [i * m.chunk_size])

/-- The per-entry body of `Memstore::store_all`, folded over the map entries:
a `Loaded` chunk with `need_store` set is passed to `store(index * chunk_size,
data)` and its flag cleared; every other entry is untouched. A `store` call
that aborts (panics) aborts the whole iteration, as a Rust panic unwinds out
of the loop. Returns the updated entries and the store calls issued. -/
def storeChunks (storeFn : Nat → List Byte → RunResult Unit) (chunk_size : Nat) :
    List (Nat × Chunk) → RunResult (List (Nat × Chunk) × List (Nat × List Byte))
  | [] => .ok ([], [])
  | (i, Chunk.loaded data true) :: rest =>
    match storeFn (i * chunk_size) data with
    | .aborted msg => .aborted msg
    | .ok _ =>
      match storeChunks storeFn chunk_size rest with
      | .aborted msg => .aborted msg
      | .ok (rest2, evs) =>
        .ok ((i, Chunk.loaded data false) :: rest2, (i * chunk_size, data) :: evs)
  | (i, c) :: rest =>
    match storeChunks storeFn chunk_size rest with
    | .aborted msg => .aborted msg
    | .ok (rest2, evs) => .ok ((i, c) :: rest2, evs)

/-- Rust `Memstore::store_all`, with the Backing Store `store` function it calls
passed explicitly. -/
def store_all (m : Memstore) (storeFn : Nat → List Byte → RunResult Unit) :
    RunResult (Memstore × List (Nat × List Byte)) :=
  match storeChunks storeFn m.chunk_size m.chunks with
  | .aborted msg => .aborted msg
  | .ok (cs, evs) => .ok ({ m with chunks := cs }, evs)

end Memstore

/- `virtual_file.rs`, `FileLoadStore`. The underlying `std::fs::File` is
modelled by its positional read/write operations, which may fail with an IO
error. -/
namespace FileLoadStore

/-- Zero-padding of a positional read into the pre-zeroed `vec![0; chunk_size]`
buffer: the bytes actually read, then the untouched zero bytes. -/
def paddedTo (n : Nat) (bs : List Byte) : List Byte :=
  bs ++ List.replicate (n - bs.length) 0

/-- Rust `FileLoadStore::load`: allocate `vec![0; chunk_size]`, call
`file.read_at(&mut buf, x)` and `.expect("failed reading from file")` on its
result, then return `Some(buf)` unconditionally. `read_at` fills at most
`chunk_size` bytes and leaves the rest of the buffer zero; the number of bytes
read is ignored, and `None` is never returned. -/
def load (read_at : Nat → Except String (List Byte)) (chunk_size : Nat) (x : Nat) :
    RunResult (Option (List Byte)) :=
  match read_at x with
  | .error _ => .aborted "failed reading from file"
  | .ok bs => .ok (some (paddedTo chunk_size (bs.take chunk_size)))

/-- Rust `FileLoadStore::store`: `file.write_at(&buf, x).expect("failed writing to
file")`. -/
def store (write_at : Nat → List Byte → Except String Unit) (x : Nat) (buf : List Byte) :
    RunResult Unit :=
  match write_at x buf with
  | .error _ => .aborted "failed writing to file"
  | .ok _ => .ok ()

end FileLoadStore

/-- Positional read over a healthy (never-failing) file of content `file`:
returns every byte from offset `x` on; `FileLoadStore.load` truncates and
pads it to `chunk_size`. Reading at or past end of file succeeds with no
bytes, as `read_at` then returns `Ok(0)`. -/
def fileReadAt (file : List Byte) (x : Nat) : Except String (List Byte) :=
  .ok (file.drop x)

/-- The pure `load` function a `Memstore` sees when its `FileLoadStore` wraps
a healthy file: always `some`, the chunk bytes zero-padded to `chunk_size`. -/
def fileLoad (file : List Byte) (chunk_size : Nat) (x : Nat) : Option (List Byte) :=
  some (FileLoadStore.paddedTo chunk_size ((file.drop x).take chunk_size))

/-- Wrapping `u64` decrement: the value of `old_index - 1` in release-mode
Rust, also when `old_index = 0`. -/
def u64SubOne (a : Nat) : Nat := if a = 0 then 2 ^ 64 - 1 else a - 1

/-- Rust `virtual_file.rs`: `VirtualFile`, with its `Memstore<FileLoadStore>`
generalized to a `Memstore` over any pure load function. -/
structure VirtualFile where
  chunk_index : Nat
  chunk_size : Nat
  line_index_in_chunk : Nat
  chunk_lines : Option (List LoadedLine)
  memstore : Memstore

namespace VirtualFile

/-- Rust `str::split('\n')` on the byte level: the (never empty) list of
segments of `data` between occurrences of byte 10, keeping empty segments. -/
def splitOnNL : List Byte → List (List Byte)
  | [] => [[]]
  | b :: rest =>
    if b = 10 then [] :: splitOnNL rest
    else
      match splitOnNL rest with
      | [] => [[b]]
      | seg :: segs => (b :: seg) :: segs

/-- Rust `VirtualFile::parse_chunk`: split the chunk bytes on the terminator and
wrap each segment in a `LoadedLine`. -/
def parse_chunk (data : List Byte) : List LoadedLine :=
  (splitOnNL data).map (fun s => LoadedLine.mk s)

/-- Rust `VirtualFile::new` over a healthy backing file. -/
def new (chunk_size : Nat) (file : List Byte) : VirtualFile :=
  { chunk_index := 0
    chunk_size := chunk_size
    line_index_in_chunk := 0
    chunk_lines := none
    memstore := Memstore.new chunk_size (fileLoad file chunk_size) }

/-- Rust `VirtualFile::update_chunk_lines`. The Rust body appends through
`self.chunk_lines.as_mut().unwrap_or(&mut empty)`: when the `Option` is
`None` the append lands in the local `empty` vector and is discarded, so the
`None` cases below keep / produce `none`. In the retreat branch the shift
`self.line_index_in_chunk += len` happens before the swap-and-append. -/
def update_chunk_lines (v : VirtualFile) (new_index : Nat)
    (new_chunk_lines : Option (List LoadedLine)) : VirtualFile :=
  let old_index := v.chunk_index
  let v1 := { v with chunk_index := new_index }
  if new_index = old_index + 1 then
    match v1.chunk_lines with
    | some ls => { v1 with chunk_lines := some (ls ++ new_chunk_lines.getD []) }
    | none => v1
  else if new_index = u64SubOne old_index then
    let shifted := { v1 with line_index_in_chunk :=
      v1.line_index_in_chunk + ((new_chunk_lines.map List.length).getD 0) }
    match new_chunk_lines with
    | some ls => { shifted with chunk_lines := some (ls ++ shifted.chunk_lines.getD []) }
    | none => { shifted with chunk_lines := none }
  else
    { v1 with chunk_lines := new_chunk_lines }

/-- Rust `VirtualFile::seek`: compute `index = offset / chunk_size`; if it equals
the current chunk index, return unchanged; otherwise `get` the chunk from the
memstore, parse a `Loaded` chunk into lines (`None` for `Empty`), splice via
`update_chunk_lines`, and set `line_index_in_chunk = 0`. Also returns the
load offsets issued. -/
def seek (v : VirtualFile) (offset : Nat) : VirtualFile × List Nat :=
  let index := offset / v.chunk_size
  if v.chunk_index = index then (v, [])
  else
    let r := v.memstore.get index
    let new_chunk_lines := match r.1 with
      | Chunk.loaded data _ => some (parse_chunk data)
      | Chunk.empty => none
    let v1 := update_chunk_lines { v with memstore := r.2.1 } index new_chunk_lines
    ({ v1 with line_index_in_chunk := 0 }, r.2.2)

/-- Rust `VirtualFile::next_line`: increment `line_index_in_chunk`; if it reached
the window length, call `seek(self.chunk_index + 1)` (passing a chunk index
where `seek` expects a byte offset, exactly as the source does); return the
line now at `line_index_in_chunk`, if any. -/
def next_line (v : VirtualFile) : Option LoadedLine × VirtualFile × List Nat :=
  let lines_count := ((v.chunk_lines.map List.length).getD 0)
  let v1 := { v with line_index_in_chunk := v.line_index_in_chunk + 1 }
  let r := if lines_count ≤ v1.line_index_in_chunk then v1.seek (v1.chunk_index + 1)
           else (v1, [])
  (r.1.chunk_lines.bind (fun ls => ls.get? r.1.line_index_in_chunk), r.1, r.2)

end VirtualFile

/-! ### Harness definitions: traversal, flush characterization, op sequences,
and the concrete inputs the claims are evaluated at. -/

/-- Fuel-bounded traversal: iterate `next_line` from a cursor, collecting the
returned lines until the first end-of-stream `none`. -/
def collectLines : Nat → VirtualFile → List LoadedLine
  | 0, _ => []
  | Nat.succ n, v =>
    match v.next_line with
    | (some l, v2, _) => l :: collectLines n v2
    | (none, _, _) => []

/-- Modelled from the spec: the reference sequence of logical lines of a file
content F, "splitting F on the terminator directly"; the empty segment after
a final terminator is not itself a line. -/
def specLines (F : List Byte) : List (List Byte) :=
  let segs := VirtualFile.splitOnNL F
  if segs.getLast? = some [] then segs.dropLast else segs

/-- The Backing Store `store` function as the `LoadStore` trait types it:
`fn store(&self, offset, data)` returns unit, so at the trait level a store
call always succeeds. -/
def okStore : Nat → List Byte → RunResult Unit := fun _ _ => .ok ()

/-- The per-chunk effect of a successful flush: a dirty loaded chunk has its
`need_store` flag cleared, everything else is untouched. -/
def flushChunk : Chunk → Chunk
  | Chunk.loaded d true => Chunk.loaded d false
  | c => c

/-- Rust `flushChunk` lifted to a map entry (the key is preserved). -/
def flushChunkEntry (e : Nat × Chunk) : Nat × Chunk := (e.1, flushChunk e.2)

/-- The store calls a flush of the given entries issues, in entry order: one
call per dirty loaded chunk, at offset `index * chunk_size`, with its data. -/
def flushEvents (cs : Nat) : List (Nat × Chunk) → List (Nat × List Byte)
  | [] => []
  | (i, Chunk.loaded d true) :: rest => (i * cs, d) :: flushEvents cs rest
  | _ :: rest => flushEvents cs rest

/-- An operation against the Chunk Store with no intervening mutation of
chunk data: a `get`, or a `store_all` flush. -/
inductive MemOp where
  | getOp (i : Nat)
  | flushAll

/-- Run a sequence of Chunk Store operations, collecting every Backing Store
`load` offset issued along the way. A flush uses the trait-level `okStore`
and issues no loads. -/
def execOps : List MemOp → Memstore → Memstore × List Nat
  | [], m => (m, [])
  | MemOp.getOp i :: rest, m =>
    let r := m.get i
    let r2 := execOps rest r.2.1
    (r2.1, r.2.2 ++ r2.2)
  | MemOp.flushAll :: rest, m =>
    match m.store_all okStore with
    | .ok (m1, _) => execOps rest m1
    | .aborted _ => execOps rest m

/-- The round-trip input of the spec: F = "0123456789\n" as bytes. -/
def fileC1 : List Byte := [48, 49, 50, 51, 52, 53, 54, 55, 56, 57, 10]

/-- The single logical line of `fileC1`: "0123456789". -/
def lineC1 : List Byte := [48, 49, 50, 51, 52, 53, 54, 55, 56, 57]

/-- A positional read that always fails with an IO error. -/
def failingRead : Nat → Except String (List Byte) := fun _ => .error "io error"

/-- A positional write that always fails with an IO error. -/
def failingWrite : Nat → List Byte → Except String Unit := fun _ _ => .error "io error"

/-- Cursor state over `fileC1` with `chunk_size = 8` whose window holds the
materialized lines of chunk 0 alone: the single unterminated fragment
"01234567" (chunk 0 contains no terminator), current line index 0. -/
def vfC3 : VirtualFile :=
  { chunk_index := 0
    chunk_size := 8
    line_index_in_chunk := 0
    chunk_lines := some [LoadedLine.mk [48, 49, 50, 51, 52, 53, 54, 55]]
    memstore := Memstore.new 8 (fileLoad fileC1 8) }

/-- Cursor state over `fileC1` with `chunk_size = 8` positioned in chunk 1,
whose window holds chunk 1's parsed lines ("89" and the zero-padding
fragment), with the second line current. -/
def vfC4 : VirtualFile :=
  { chunk_index := 1
    chunk_size := 8
    line_index_in_chunk := 1
    chunk_lines := some [LoadedLine.mk [56, 57], LoadedLine.mk [0, 0, 0, 0, 0]]
    memstore := Memstore.new 8 (fileLoad fileC1 8) }

/-- A Chunk Store holding exactly one dirty chunk (index 0, data "A"). -/
def msC8 : Memstore :=
  { chunks := [(0, Chunk.loaded [65] true)], chunk_size := 8, load := fun _ => none }

/-- A Chunk Store with a dirty chunk, a clean chunk and an `Empty` chunk,
used to instantiate the flush theorems. -/
def msC7 : Memstore :=
  { chunks := [(0, Chunk.loaded [65] true), (1, Chunk.loaded [66] false), (2, Chunk.empty)]
    chunk_size := 4
    load := fun _ => none }

/-! ### Theorems -/

/-- On a healthy file the fallible `FileLoadStore.load` never aborts and
computes exactly the pure `fileLoad` the cursor model uses. -/
theorem fileLoadStore_load_healthy (file : List Byte) (chunk_size x : Nat) :
    FileLoadStore.load (fileReadAt file) chunk_size x =
      .ok (fileLoad file chunk_size x) := rfl

/-- C1: the round-trip claim fails on the code. For F = "0123456789\n" with
`chunk_size = 8`, the reference split has the single logical line
"0123456789", but iterating `next_line` from a fresh cursor yields no lines
at all: the very first call hits `seek(chunk_index + 1) = seek(1)`, and
`1 / 8 = 0` is the current chunk, so the seek is a no-op, the window stays
unmaterialized, and `next_line` reports end of stream. -/
theorem c1_roundtrip_fails_on_code :
    collectLines 8 (VirtualFile.new 8 fileC1) = [] ∧
    specLines fileC1 = [lineC1] := by
  exact ⟨rfl, rfl⟩

/-- C2: no IO failure in the Backing Store is surfaced as a typed error:
both `FileLoadStore::load` and `FileLoadStore::store` call `.expect`, so for
every positional read or write that fails — whatever the offset, the buffer
or the underlying error — the process aborts instead of an error value
reaching the caller. -/
theorem c2_io_failure_aborts_process :
    (∀ (read_at : Nat → Except String (List Byte)) (cs x : Nat) (e : String),
      read_at x = .error e →
      FileLoadStore.load read_at cs x = .aborted "failed reading from file") ∧
    (∀ (write_at : Nat → List Byte → Except String Unit) (x : Nat)
      (buf : List Byte) (e : String),
      write_at x buf = .error e →
      FileLoadStore.store write_at x buf = .aborted "failed writing to file") := by
  constructor
  · intro read_at cs x e h
    simp [FileLoadStore.load, h]
  · intro write_at x buf e h
    simp [FileLoadStore.store, h]

/-- Witness for C2 at a concrete always-failing read (chunk size 8, offset 0)
and a concrete always-failing write (offset 0, buffer "A"). -/
theorem c2_io_failure_aborts_process_witness :
    FileLoadStore.load failingRead 8 0 = .aborted "failed reading from file" ∧
    FileLoadStore.store failingWrite 0 [65] = .aborted "failed writing to file" :=
  ⟨c2_io_failure_aborts_process.1 failingRead 8 0 "io error" rfl,
   c2_io_failure_aborts_process.2 failingWrite 0 [65] "io error" rfl⟩

/-- C3: the advancing adjacent seek does not stitch the boundary fragments.
From the window holding chunk 0's unterminated fragment "01234567", a seek to
offset 8 (chunk 1) appends chunk 1's parsed lines "89" and the zero-padding
fragment as separate lines; no window line equals the logical line
"0123456789". -/
theorem c3_adjacent_seek_does_not_stitch :
    (vfC3.seek 8).1.chunk_lines =
      some [LoadedLine.mk [48, 49, 50, 51, 52, 53, 54, 55],
            LoadedLine.mk [56, 57], LoadedLine.mk [0, 0, 0, 0, 0]] ∧
    ¬ LoadedLine.mk lineC1 ∈ ((vfC3.seek 8).1.chunk_lines.getD []) := by
  exact ⟨rfl, by decide⟩

/-- C4: the retreating adjacent seek neither stitches the preceding chunk's
trailing fragment nor keeps the previously-current line current. From chunk 1
with current line index 1 (the zero-padding fragment), a seek to offset 0
prepends chunk 0's single fragment "01234567" unconcatenated, and — although
`update_chunk_lines` shifts `line_index_in_chunk` to 2 — `seek` then resets
it to 0, so the current line becomes "01234567" instead of the
previously-current line. -/
theorem c4_retreat_seek_loses_current_line :
    (vfC4.seek 0).1.chunk_lines =
      some [LoadedLine.mk [48, 49, 50, 51, 52, 53, 54, 55],
            LoadedLine.mk [56, 57], LoadedLine.mk [0, 0, 0, 0, 0]] ∧
    (vfC4.seek 0).1.line_index_in_chunk = 0 ∧
    ((vfC4.seek 0).1.chunk_lines.getD []).get? (vfC4.seek 0).1.line_index_in_chunk =
      some (LoadedLine.mk [48, 49, 50, 51, 52, 53, 54, 55]) := by
  exact ⟨rfl, rfl, rfl⟩

/-- C5: `next_line` does not perform an adjacent seek to chunk
`current_chunk_index + 1`; it calls `seek(self.chunk_index + 1)`, passing a
chunk index where `seek` expects a byte offset. On a fresh cursor over
F = "0123456789\n" with `chunk_size = 8` this is `seek(1)`, which targets
chunk `1 / 8 = 0` — the current chunk — so nothing is loaded (no Backing
Store call, chunk index still 0) and `next_line` returns the end-of-stream
`none` even though the Backing Store yields data for chunk 1 (and chunk 0). -/
theorem c5_next_line_stalls_at_first_chunk :
    (VirtualFile.new 8 fileC1).next_line.1 = none ∧
    (VirtualFile.new 8 fileC1).next_line.2.2 = [] ∧
    (VirtualFile.new 8 fileC1).next_line.2.1.chunk_index = 0 ∧
    fileLoad fileC1 8 (1 * 8) = some [56, 57, 10, 0, 0, 0, 0, 0] := by
  exact ⟨rfl, rfl, rfl, rfl⟩

/-- C6: beyond the persisted extent the file-backed `load` does not return
`None` — `read_at` past end of file reads zero bytes, the count is ignored,
and the zero-filled buffer is returned as `Some`. Consequently, over an empty
backing file, `get(2)` caches a fabricated `Loaded` chunk of eight zero
bytes, not `Empty`; the generic `Memstore::get` does map a `None` from `load`
to `Empty`, but the repository's only `LoadStore` never produces that
`None`. -/
theorem c6_beyond_eof_load_fabricates_zeros :
    FileLoadStore.load (fileReadAt []) 8 (2 * 8) = .ok (some (List.replicate 8 0)) ∧
    ((Memstore.new 8 (fileLoad [] 8)).get 2).1 = Chunk.loaded (List.replicate 8 0) false ∧
    ((Memstore.new 8 (fun _ => none)).get 2).1 = Chunk.empty := by
  refine ⟨?_, ?_, rfl⟩ <;> decide

/-- C8: a failing Backing Store write during a flush of a dirty chunk does
not return an error with the dirty flag retained — `FileLoadStore::store`
calls `.expect`, so the whole `store_all` aborts the process and no state
survives to retry; by contrast a succeeding store clears the flag. -/
theorem c8_flush_aborts_on_store_failure :
    msC8.store_all (FileLoadStore.store failingWrite) = .aborted "failed writing to file" ∧
    msC8.store_all okStore =
      .ok ({ msC8 with chunks := [(0, Chunk.loaded [65] false)] }, [(0, [65])]) := by
  exact ⟨rfl, rfl⟩

/-- C10: on a freshly constructed cursor, a seek to any offset inside the
first chunk is a complete no-op: the computed target chunk `offset / cs = 0`
equals the initial `chunk_index = 0`, so `seek` returns early — the state is
unchanged (no window materialized, indices untouched) and no Backing Store
call is issued; chunk 0 is never loaded by such a seek. -/
theorem c10_fresh_seek_within_chunk0_noop (cs : Nat) (file : List Byte)
    (offset : Nat) (h : offset < cs) :
    (VirtualFile.new cs file).seek offset = (VirtualFile.new cs file, []) := by
  unfold VirtualFile.seek
  simp [VirtualFile.new, Nat.div_eq_of_lt h]

/-- Witness for C10 at `cs = 8`, F = "0123456789\n", `offset = 3`. -/
theorem c10_fresh_seek_within_chunk0_noop_witness :
    (VirtualFile.new 8 fileC1).seek 3 = (VirtualFile.new 8 fileC1, []) :=
  c10_fresh_seek_within_chunk0_noop 8 fileC1 3 (by decide)

/-- Running the flush body with the trait-level (infallible) store function
never aborts: it clears every dirty flag and issues exactly the per-entry
store events, in entry order. -/
theorem storeChunks_okStore (cs : Nat) (l : List (Nat × Chunk)) :
    Memstore.storeChunks okStore cs l = .ok (l.map flushChunkEntry, flushEvents cs l) := by
  induction l with
  | nil => rfl
  | cons e rest ih =>
    obtain ⟨i, c⟩ := e
    match c with
    | Chunk.loaded d true =>
      simp [Memstore.storeChunks, okStore, flushChunkEntry, flushChunk, flushEvents, ih]
    | Chunk.loaded d false =>
      simp [Memstore.storeChunks, okStore, flushChunkEntry, flushChunk, flushEvents, ih]
    | Chunk.empty =>
      simp [Memstore.storeChunks, okStore, flushChunkEntry, flushChunk, flushEvents, ih]

/-- Clearing a dirty flag is idempotent. -/
theorem flushChunk_idem (c : Chunk) : flushChunk (flushChunk c) = flushChunk c := by
  match c with
  | Chunk.loaded d true => rfl
  | Chunk.loaded d false => rfl
  | Chunk.empty => rfl

/-- Flushing entries preserves their keys. -/
theorem keys_map_flush (l : List (Nat × Chunk)) :
    (l.map flushChunkEntry).map Prod.fst = l.map Prod.fst := by
  induction l with
  | nil => rfl
  | cons e rest ih => simp [flushChunkEntry, ih]

/-- Flushing an entry is idempotent. -/
theorem flushChunkEntry_idem (e : Nat × Chunk) :
    flushChunkEntry (flushChunkEntry e) = flushChunkEntry e := by
  obtain ⟨i, c⟩ := e
  simp [flushChunkEntry, flushChunk_idem]

/-- Flushing entries is idempotent. -/
theorem map_flushChunkEntry_idem (l : List (Nat × Chunk)) :
    (l.map flushChunkEntry).map flushChunkEntry = l.map flushChunkEntry := by
  induction l with
  | nil => rfl
  | cons e rest ih => simp [flushChunkEntry_idem, ih]

/-- Entries that have just been flushed contain no dirty chunk, so flushing
them again issues no store events. -/
theorem flushEvents_map_flush (cs : Nat) (l : List (Nat × Chunk)) :
    flushEvents cs (l.map flushChunkEntry) = [] := by
  induction l with
  | nil => rfl
  | cons e rest ih =>
    obtain ⟨i, c⟩ := e
    match c with
    | Chunk.loaded d true => simp [flushChunkEntry, flushChunk, flushEvents, ih]
    | Chunk.loaded d false => simp [flushChunkEntry, flushChunk, flushEvents, ih]
    | Chunk.empty => simp [flushChunkEntry, flushChunk, flushEvents, ih]

/-- Lookup after a flush sees the flushed chunk. -/
theorem lookup_map_flush (l : List (Nat × Chunk)) (i : Nat) :
    lookupChunk (l.map flushChunkEntry) i = Option.map flushChunk (lookupChunk l i) := by
  induction l with
  | nil => rfl
  | cons e rest ih =>
    obtain ⟨j, c⟩ := e
    by_cases h : j = i <;> simp [flushChunkEntry, lookupChunk, h, ih]

/-- A key is absent from the association list iff lookup misses. -/
theorem lookupChunk_eq_none_iff (l : List (Nat × Chunk)) (i : Nat) :
    lookupChunk l i = none ↔ i ∉ l.map Prod.fst := by
  induction l with
  | nil => simp [lookupChunk]
  | cons e rest ih =>
    obtain ⟨j, c⟩ := e
    simp only [List.map_cons, List.mem_cons, not_or]
    by_cases h : j = i
    · subst h
      simp [lookupChunk]
    · simp only [lookupChunk, if_neg h, ih]
      exact ⟨fun hh => ⟨fun hh2 => h hh2.symm, hh⟩, fun hh => hh.2⟩

/-- A chunk index not present among the entries receives no store event. -/
theorem flushEvents_filter_of_not_mem (cs : Nat) (hcs : 0 < cs) (i : Nat) :
    ∀ l : List (Nat × Chunk), i ∉ l.map Prod.fst →
      (flushEvents cs l).filter (fun e => e.1 = i * cs) = [] := by
  intro l
  induction l with
  | nil => intro _; rfl
  | cons e rest ih =>
    obtain ⟨j, c⟩ := e
    intro hmem
    simp only [List.map_cons, List.mem_cons, not_or] at hmem
    have hoff : ¬ (j * cs = i * cs) := fun hh =>
      hmem.1 (Nat.eq_of_mul_eq_mul_right hcs hh).symm
    match c with
    | Chunk.loaded d true => simp [flushEvents, List.filter_cons, hoff, ih hmem.2]
    | Chunk.loaded d false => simp [flushEvents, ih hmem.2]
    | Chunk.empty => simp [flushEvents, ih hmem.2]

/-- With unique keys, a dirty chunk receives exactly one store event, at its
own offset, carrying its own data. -/
theorem flushEvents_filter_of_dirty (cs : Nat) (hcs : 0 < cs) (i : Nat) (d : List Byte) :
    ∀ l : List (Nat × Chunk), (l.map Prod.fst).Nodup →
      lookupChunk l i = some (Chunk.loaded d true) →
      (flushEvents cs l).filter (fun e => e.1 = i * cs) = [(i * cs, d)] := by
  intro l
  induction l with
  | nil => intro _ h; exact absurd h (by simp [lookupChunk])
  | cons e rest ih =>
    obtain ⟨j, c⟩ := e
    intro hnd hl
    simp only [List.map_cons, List.nodup_cons] at hnd
    by_cases h : j = i
    · subst h
      simp [lookupChunk] at hl
      subst hl
      simp [flushEvents, List.filter_cons,
        flushEvents_filter_of_not_mem cs hcs j rest hnd.1]
    · simp only [lookupChunk, if_neg h] at hl
      have hoff : ¬ (j * cs = i * cs) := fun hh =>
        h (Nat.eq_of_mul_eq_mul_right hcs hh)
      match c with
      | Chunk.loaded d2 true =>
        simp [flushEvents, List.filter_cons, hoff, ih hnd.2 hl]
      | Chunk.loaded d2 false => simp [flushEvents, ih hnd.2 hl]
      | Chunk.empty => simp [flushEvents, ih hnd.2 hl]

/-- With unique keys, a chunk index whose entry is not dirty receives no
store event. -/
theorem flushEvents_filter_of_clean (cs : Nat) (hcs : 0 < cs) (i : Nat) :
    ∀ l : List (Nat × Chunk), (l.map Prod.fst).Nodup →
      (∀ d, lookupChunk l i ≠ some (Chunk.loaded d true)) →
      (flushEvents cs l).filter (fun e => e.1 = i * cs) = [] := by
  intro l
  induction l with
  | nil => intro _ _; rfl
  | cons e rest ih =>
    obtain ⟨j, c⟩ := e
    intro hnd hcl
    simp only [List.map_cons, List.nodup_cons] at hnd
    by_cases h : j = i
    · subst h
      have hrest := flushEvents_filter_of_not_mem cs hcs j rest hnd.1
      match c with
      | Chunk.loaded d2 true =>
        exact absurd (by simp [lookupChunk]) (hcl d2)
      | Chunk.loaded d2 false => simp [flushEvents, hrest]
      | Chunk.empty => simp [flushEvents, hrest]
    · have hl : ∀ d, lookupChunk rest i ≠ some (Chunk.loaded d true) := by
        intro d hd
        exact hcl d (by simp [lookupChunk, if_neg h, hd])
      have hoff : ¬ (j * cs = i * cs) := fun hh =>
        h (Nat.eq_of_mul_eq_mul_right hcs hh)
      match c with
      | Chunk.loaded d2 true =>
        simp [flushEvents, List.filter_cons, hoff, ih hnd.2 hl]
      | Chunk.loaded d2 false => simp [flushEvents, ih hnd.2 hl]
      | Chunk.empty => simp [flushEvents, ih hnd.2 hl]

/-- C7: `store_all` over the trait-level store issues exactly one store call,
at offset `index * chunk_size` with the chunk's data, for each dirty chunk,
clears that chunk's dirty flag, issues no call for any clean or `Empty`
chunk, and a second `store_all` with no intervening mutation issues zero
calls and leaves the store unchanged. -/
theorem c7_flush_all_exactly_dirty (m : Memstore)
    (hnd : (m.chunks.map Prod.fst).Nodup) (hcs : 0 < m.chunk_size) :
    ∃ m2 evs, m.store_all okStore = .ok (m2, evs) ∧
      (∀ i d, lookupChunk m.chunks i = some (Chunk.loaded d true) →
        evs.filter (fun e => e.1 = i * m.chunk_size) = [(i * m.chunk_size, d)] ∧
        lookupChunk m2.chunks i = some (Chunk.loaded d false)) ∧
      (∀ i c, lookupChunk m.chunks i = some c → (∀ d, c ≠ Chunk.loaded d true) →
        evs.filter (fun e => e.1 = i * m.chunk_size) = []) ∧
      m2.store_all okStore = .ok (m2, []) := by
  refine ⟨{ m with chunks := m.chunks.map flushChunkEntry },
    flushEvents m.chunk_size m.chunks, ?_, ?_, ?_, ?_⟩
  · simp [Memstore.store_all, storeChunks_okStore]
  · intro i d h
    refine ⟨flushEvents_filter_of_dirty m.chunk_size hcs i d m.chunks hnd h, ?_⟩
    simp [lookup_map_flush, h, flushChunk]
  · intro i c h hc
    refine flushEvents_filter_of_clean m.chunk_size hcs i m.chunks hnd ?_
    intro d hd
    rw [h] at hd
    exact hc d (Option.some.injEq _ _ ▸ hd)
  · simp only [Memstore.store_all, storeChunks_okStore, map_flushChunkEntry_idem,
      flushEvents_map_flush]

/-- Witness for C7 at a concrete store with one dirty, one clean and one
`Empty` chunk: the quantified consequences at that store, plus the concrete
evaluation — one store call, for the dirty chunk only, flag cleared. -/
theorem c7_flush_all_exactly_dirty_witness :
    (∃ m2 evs, msC7.store_all okStore = .ok (m2, evs) ∧
      (∀ i d, lookupChunk msC7.chunks i = some (Chunk.loaded d true) →
        evs.filter (fun e => e.1 = i * msC7.chunk_size) = [(i * msC7.chunk_size, d)] ∧
        lookupChunk m2.chunks i = some (Chunk.loaded d false)) ∧
      (∀ i c, lookupChunk msC7.chunks i = some c → (∀ d, c ≠ Chunk.loaded d true) →
        evs.filter (fun e => e.1 = i * msC7.chunk_size) = []) ∧
      m2.store_all okStore = .ok (m2, [])) ∧
    msC7.store_all okStore =
      .ok ({ msC7 with chunks :=
        [(0, Chunk.loaded [65] false), (1, Chunk.loaded [66] false), (2, Chunk.empty)] },
        [(0, [65])]) :=
  ⟨c7_flush_all_exactly_dirty msC7 (by decide) (by decide), rfl⟩

/-- Lookup finds an entry appended for a key that was absent. -/
theorem lookupChunk_append_of_none (l : List (Nat × Chunk)) (i : Nat) (c : Chunk)
    (h : lookupChunk l i = none) : lookupChunk (l ++ [(i, c)]) i = some c := by
  induction l with
  | nil => simp [lookupChunk]
  | cons e rest ih =>
    obtain ⟨j, c2⟩ := e
    by_cases hj : j = i
    · simp [lookupChunk, hj] at h
    · simp only [List.cons_append, lookupChunk, if_neg hj] at h ⊢
      exact ih h

/-- Chunk Store operations never change the chunk size. -/
theorem get_chunk_size (m : Memstore) (i : Nat) :
    ((m.get i).2.1).chunk_size = m.chunk_size := by
  rcases h : lookupChunk m.chunks i with _ | c <;> simp [Memstore.get, h]

/-- Over any operation sequence started at `m`, the Backing Store is asked to
load chunk `i`'s offset at most once — and never, once an entry for `i` is
cached. -/
theorem execOps_load_count (i : Nat) :
    ∀ (ops : List MemOp) (m : Memstore), 0 < m.chunk_size →
      ((execOps ops m).2.count (i * m.chunk_size)) ≤
        (if i ∈ m.chunks.map Prod.fst then 0 else 1) := by
  intro ops
  induction ops with
  | nil =>
    intro m hcs
    simp [execOps]
  | cons op rest ih =>
    intro m hcs
    cases op with
    | getOp j =>
      rcases h : lookupChunk m.chunks j with _ | c
      · have hj : j ∉ m.chunks.map Prod.fst := (lookupChunk_eq_none_iff _ _).mp h
        rcases hload : m.load (j * m.chunk_size) with _ | data <;>
        · simp only [execOps, Memstore.get, h, hload]
          generalize hm1 :
            ({ m with chunks := m.chunks ++ [(j, _)] } : Memstore) = m1
          have hsz : m1.chunk_size = m.chunk_size := by rw [← hm1]
          have hkeys : m1.chunks.map Prod.fst = m.chunks.map Prod.fst ++ [j] := by
            rw [← hm1]; simp
          have ih1 := ih m1 (hsz ▸ hcs)
          rw [hsz] at ih1
          by_cases hi : i ∈ m.chunks.map Prod.fst
          · have hij : ¬ (i = j) := fun hh => hj (hh ▸ hi)
            have hoff : ¬ (i * m.chunk_size = j * m.chunk_size) := fun hh =>
              hij (Nat.eq_of_mul_eq_mul_right hcs hh)
            have hi1 : i ∈ m1.chunks.map Prod.fst := by
              rw [hkeys]; exact List.mem_append_left _ hi
            rw [if_pos hi1] at ih1
            rw [List.singleton_append, List.count_cons_of_ne hoff, if_pos hi]
            omega
          · by_cases hij : i = j
            · subst hij
              have hi1 : i ∈ m1.chunks.map Prod.fst := by
                rw [hkeys]; exact List.mem_append_right _ (by simp)
              rw [if_pos hi1] at ih1
              rw [List.singleton_append, List.count_cons_self, if_neg hi]
              omega
            · have hoff : ¬ (i * m.chunk_size = j * m.chunk_size) := fun hh =>
                hij (Nat.eq_of_mul_eq_mul_right hcs hh)
              have hi1 : i ∉ m1.chunks.map Prod.fst := by
                rw [hkeys]
                simp [hi, hij]
              rw [if_neg hi1] at ih1
              rw [List.singleton_append, List.count_cons_of_ne hoff, if_neg hi]
              omega
      · simp only [execOps, Memstore.get, h]
        simpa using ih m hcs
    | flushAll =>
      simp only [execOps, Memstore.store_all, storeChunks_okStore]
      have ih1 := ih { m with chunks := m.chunks.map flushChunkEntry } hcs
      rw [keys_map_flush] at ih1
      exact ih1

/-- C9: two consecutive `get(i)` calls with no intervening mutation return
the same chunk, and the second issues no Backing Store load; moreover, over
any sequence of `get` / `store_all` operations from a fresh store, at most
one load is ever issued for chunk `i`'s offset. -/
theorem c9_get_idempotent_single_load (m : Memstore) (i : Nat) (cs : Nat)
    (hcs : 0 < cs) (loadFn : Nat → Option (List Byte)) (ops : List MemOp) :
    (((m.get i).2.1).get i).1 = (m.get i).1 ∧
    (((m.get i).2.1).get i).2.2 = [] ∧
    ((execOps ops (Memstore.new cs loadFn)).2.count (i * cs)) ≤ 1 := by
  refine ⟨?_, ?_, ?_⟩
  · rcases h : lookupChunk m.chunks i with _ | c
    · simp [Memstore.get, h, lookupChunk_append_of_none _ _ _ h]
    · simp [Memstore.get, h]
  · rcases h : lookupChunk m.chunks i with _ | c
    · simp [Memstore.get, h, lookupChunk_append_of_none _ _ _ h]
    · simp [Memstore.get, h]
  · have := execOps_load_count i ops (Memstore.new cs loadFn) hcs
    simpa [Memstore.new] using this

/-- Witness for C9 at a concrete store, chunk index 5, chunk size 4, and the
operation sequence get 5, flush, get 5. -/
theorem c9_get_idempotent_single_load_witness :
    (((msC7.get 5).2.1).get 5).1 = (msC7.get 5).1 ∧
    (((msC7.get 5).2.1).get 5).2.2 = [] ∧
    ((execOps [MemOp.getOp 5, MemOp.flushAll, MemOp.getOp 5]
      (Memstore.new 4 (fun _ => none))).2.count (5 * 4)) ≤ 1 :=
  c9_get_idempotent_single_load msC7 5 4 (by decide) (fun _ => none)
    [MemOp.getOp 5, MemOp.flushAll, MemOp.getOp 5]
